import Mathlib

/-!
Shallow embedding of the Saturn worker engine (broker sync loop, executor
manager, control-plane lock endpoint) together with proofs about the
behaviour of those functions.

Each Python method that a claim depends on is transcribed as a Lean
function over explicit state; asynchronous effects (park/unpark, publish,
cancel, push) are recorded as actions in a trace so that call counts and
ordering can be reasoned about.
-/

namespace Saturn

/-! ## Broker sync application (broker.py, `Broker.run_worker_manager`)

One iteration of the sync loop applies a `WorkSync` to the scheduler, the
task manager and the resources manager.  The scheduler/taskmanager/resources
`add`/`remove` operations themselves are not under `src/`; following the
spec (§4.3 "add(q) inserts at the tail", "remove(q) marks the queue for
removal") they are modelled as list append and list erase. -/

structure SyncPair (α : Type) where
  add : List α
  drop : List α
  deriving DecidableEq

structure WorkSync (Q T R : Type) where
  queues : SyncPair Q
  tasks : SyncPair T
  resources : SyncPair R
  deriving DecidableEq

structure BrokerState (Q T R : Type) where
  scheduler : List Q
  taskManager : List T
  resourcesManager : List R
  deriving DecidableEq

variable {Q T R : Type}

/-- Modelled from the spec: `Scheduler.add` inserts at the tail. -/
def schedulerAdd (s : List Q) (q : Q) : List Q := s ++ [q]

/-- Modelled from the spec: `Scheduler.remove` removes the queue from the
active set. -/
def schedulerRemove [DecidableEq Q] (s : List Q) (q : Q) : List Q := s.erase q

/-- One iteration of `Broker.run_worker_manager`, transcribed from
broker.py lines 95-107: the source runs three add-loops (queues, tasks,
resources) and then three drop-loops (queues, tasks, resources).
`applySync` follows the source line by line. -/
def applySync [DecidableEq Q] [DecidableEq T] [DecidableEq R]
    (s : BrokerState Q T R) (ws : WorkSync Q T R) : BrokerState Q T R :=
  let s1 := { s with scheduler := ws.queues.add.foldl schedulerAdd s.scheduler }
  let s2 := { s1 with taskManager := ws.tasks.add.foldl schedulerAdd s1.taskManager }
  let s3 := { s2 with resourcesManager := ws.resources.add.foldl schedulerAdd s2.resourcesManager }
  let s4 := { s3 with scheduler := ws.queues.drop.foldl schedulerRemove s3.scheduler }
  let s5 := { s4 with taskManager := ws.tasks.drop.foldl schedulerRemove s4.taskManager }
  { s5 with resourcesManager := ws.resources.drop.foldl schedulerRemove s5.resourcesManager }

/-- The order asserted by the claim: queue drops and task drops are applied
before queue adds and task adds, while resource adds come before resource
drops. -/
def applySyncClaimOrder [DecidableEq Q] [DecidableEq T] [DecidableEq R]
    (s : BrokerState Q T R) (ws : WorkSync Q T R) : BrokerState Q T R :=
  let s1 := { s with scheduler := ws.queues.drop.foldl schedulerRemove s.scheduler }
  let s2 := { s1 with taskManager := ws.tasks.drop.foldl schedulerRemove s1.taskManager }
  let s3 := { s2 with scheduler := ws.queues.add.foldl schedulerAdd s2.scheduler }
  let s4 := { s3 with taskManager := ws.tasks.add.foldl schedulerAdd s3.taskManager }
  let s5 := { s4 with resourcesManager := ws.resources.add.foldl schedulerAdd s4.resourcesManager }
  { s5 with resourcesManager := ws.resources.drop.foldl schedulerRemove s5.resourcesManager }

/-! ## ExecutorManager.consume_output (executors/__init__.py lines 116-130)

The coroutine walks the pipeline outputs; for each output item it looks up
the topics routed for the item's channel, skips `None` entries, publishes
with `wait=False`, and when that publish returns `False` it parks the
source queue and publishes again with `wait=True`.  A `finally` block
unparks once at the end.  A topic publish is modelled by a behaviour
function `Nat → Bool → PubRes` (message, wait flag); `PubRes.raised`
models `publish` raising, which aborts the loop but still runs the
`finally`.  Each call to `park`/`unpark`/`publish` is recorded as an
action. -/

inductive PubRes where
  | accepted
  | declined
  | raised
  deriving DecidableEq, Repr

structure SaturnTopic where
  id : Nat
  beh : Nat → Bool → PubRes

structure PipelineOutput where
  channel : Nat
  message : Nat

inductive OAct where
  | pub (topic : Nat) (message : Nat) (wait : Bool) (res : PubRes)
  | park
  | unpark
  deriving DecidableEq, Repr

/-- Inner `for topic in topics` loop of `consume_output` for one output
item: trace of actions paired with `true` when the loop ran to completion
and `false` when a publish raised. -/
def publishTopics (m : Nat) : List (Option SaturnTopic) → List OAct × Bool
  | [] => ([], true)
  | none :: ts => publishTopics m ts
  | some t :: ts =>
    match t.beh m false with
    | .raised => ([.pub t.id m false .raised], false)
    | .accepted =>
      let p := publishTopics m ts
      (.pub t.id m false .accepted :: p.1, p.2)
    | .declined =>
      match t.beh m true with
      | .raised => ([.pub t.id m false .declined, .park, .pub t.id m true .raised], false)
      | r =>
        let p := publishTopics m ts
        (.pub t.id m false .declined :: .park :: .pub t.id m true r :: p.1, p.2)

/-- Outer `for item in output` loop of `consume_output`. -/
def consumeItems (routes : Nat → List (Option SaturnTopic)) :
    List PipelineOutput → List OAct × Bool
  | [] => ([], true)
  | item :: rest =>
    let p := publishTopics item.message (routes item.channel)
    if p.2 then
      let q := consumeItems routes rest
      (p.1 ++ q.1, q.2)
    else (p.1, false)

/-- `ExecutorManager.consume_output`: the loops wrapped in
`try ... finally: await processable.unpark()`. -/
def consume_output (routes : Nat → List (Option SaturnTopic))
    (output : List PipelineOutput) : List OAct × Bool :=
  let p := consumeItems routes output
  (p.1 ++ [.unpark], p.2)

/-- Count of `park` actions in a trace. -/
def countPark (tr : List OAct) : Nat := tr.countP (· = OAct.park)

/-- Count of `unpark` actions in a trace. -/
def countUnpark (tr : List OAct) : Nat := tr.countP (· = OAct.unpark)

/-- Count of non-waiting publishes that declined. -/
def countDeclinedFirst (tr : List OAct) : Nat :=
  tr.countP fun a => match a with
    | .pub _ _ false .declined => true
    | _ => false

/-- Count of waiting (`wait=True`) publishes. -/
def countWaitPub (tr : List OAct) : Nat :=
  tr.countP fun a => match a with
    | .pub _ _ true _ => true
    | _ => false

/-! ## ExecutorManager.submit / acquire_resources / delayed_submit
(executors/__init__.py lines 64-114)

`ResourcesManager.acquire_many` is not under `src/`; modelled from the
spec (§4.4): with `wait=False` it either returns a context or raises
`ResourceUnavailable` (the behaviour function decides which); with
`wait=True` it suspends until all resources are held, so it completes
without raising.  The acquisition context is irrelevant to the claims and
is modelled as `Unit`. -/

/-- Submitted message: all `submit` needs is `message.missing_resources`. -/
structure XMsg where
  missing : List String
  deriving DecidableEq

/-- Actions recorded by `submit` and the background `delayed_submit`
task.  `spawnDelayed` marks the creation of the background task; the
background task's own trace is reported separately. -/
inductive SAct where
  | push
  | park
  | unpark
  | acqTry (ok : Bool)
  | acqWait
  | spawnDelayed
  deriving DecidableEq, Repr

/-- Modelled from the spec: `ResourcesManager.acquire_many`.  The
behaviour `beh` gives the outcome of a non-waiting acquisition; a waiting
acquisition suspends until it succeeds. -/
def acquire_many (beh : List String → Except Unit Unit)
    (missing : List String) (wait : Bool) : Except Unit Unit :=
  if wait then .ok () else beh missing

/-- `ExecutorManager.acquire_resources`: returns `true` when nothing is
missing or the acquisition succeeded, catches `ResourceUnavailable` and
returns `false`.  The result is in `Except` to record whether any
exception escapes the method. -/
def acquire_resources (beh : List String → Except Unit Unit)
    (x : XMsg) (wait : Bool) : Except Unit Bool :=
  if x.missing = [] then .ok true
  else
    match acquire_many beh x.missing wait with
    | .error _ => .ok false
    | .ok _ => .ok true

/-- `ExecutorManager.delayed_submit`: acquire with `wait=True`, unpark in
the `finally`, then push to the hand-off channel. -/
def delayed_submit (beh : List String → Except Unit Unit) (x : XMsg) : List SAct :=
  match acquire_many beh x.missing true with
  | .ok _ => [.acqWait, .unpark, .push]
  | .error _ => [.acqWait, .unpark]

/-- `ExecutorManager.submit`: fast path pushes to the channel; slow path
parks the source queue and spawns `delayed_submit` as a background task.
The result pairs `submit`'s own actions with the trace of the background
task it spawned (empty on the fast path). -/
def submit (beh : List String → Except Unit Unit) (x : XMsg) :
    Except Unit (List SAct × List SAct) :=
  match acquire_resources beh x false with
  | .error e => .error e
  | .ok true => .ok ([.acqTry true, .push], [])
  | .ok false => .ok ([.acqTry false, .park, .spawnDelayed], delayed_submit beh x)

/-- Fast-path success condition, stated independently of the traces: no
resource is missing, or the non-waiting acquisition succeeds. -/
def fastPathOk (beh : List String → Except Unit Unit) (x : XMsg) : Bool :=
  x.missing.isEmpty ||
    (match beh x.missing with
     | .ok _ => true
     | .error _ => false)

/-! ## ExecutorManager.run_queue (executors/__init__.py lines 44-62)

The worker loop: dequeue, enter the scoped context (`async with
processable.context`), run `process_message`, record resources used, spawn
the output-consumption task, and leave the scope; an exception from the
body exits the scope (releasing resources) and is caught and logged, after
which the loop continues.  The executor is modelled as a function from the
message id to `Except`; the worker is run on the finite list of messages
it dequeues. -/

inductive WAct where
  | enter (x : Nat)
  | updateRes (x : Nat)
  | spawnConsume (x : Nat)
  | exitScope (x : Nat)
  | logFail (x : Nat)
  deriving DecidableEq, Repr

/-- `ExecutorManager.run_queue`, unrolled over the list of dequeued
messages. -/
def run_queue (exec : Nat → Except Unit Unit) : List Nat → List WAct
  | [] => []
  | x :: rest =>
    (match exec x with
     | .ok _ => [.enter x, .updateRes x, .spawnConsume x, .exitScope x]
     | .error _ => [.enter x, .exitScope x, .logFail x]) ++ run_queue exec rest

/-! ## ExecutorManager.__init__ / start / backpressure
(executors/__init__.py lines 24-42)

`__init__` creates `asyncio.Queue(maxsize=1)` and `start` spawns
`concurrency` copies of `run_queue`.  For the backpressure bound the
system is abstracted as a transition system: a submit may place a message
into the hand-off slot when it has room, and a worker may take the message
out when fewer than `c` workers hold one; with an executor that never
completes no message is ever released. -/

/-- Capacity of the hand-off channel, from `asyncio.Queue(maxsize=1)`. -/
def handoffCapacity : Nat := 1

/-- Tasks spawned by `ExecutorManager.start`: one `run_queue` task per
unit of concurrency. -/
def startTasks (concurrency : Nat) : List Nat := List.range concurrency

/-- Number of messages in the hand-off slot and number held by workers. -/
structure BPState where
  slot : Nat
  held : Nat
  deriving DecidableEq, Repr

/-- One step of the saturated executor system with `c` workers: `put` is
`submit` placing a message into the channel, `take` is a worker dequeuing
it.  Workers never finish (the executor never completes), so no message
leaves `held`. -/
inductive BPStep (c : Nat) : BPState → BPState → Prop where
  | put (s : BPState) : s.slot < handoffCapacity → BPStep c s ⟨s.slot + 1, s.held⟩
  | take (s : BPState) : 0 < s.slot → s.held < c → BPStep c s ⟨s.slot - 1, s.held + 1⟩

/-- States reachable from the empty system. -/
inductive BPReach (c : Nat) : BPState → Prop where
  | init : BPReach c ⟨0, 0⟩
  | step {s s' : BPState} : BPReach c s → BPStep c s s' → BPReach c s'

/-- Messages accepted from the scheduler: in the slot or held by a
worker. -/
def accepted (s : BPState) : Nat := s.slot + s.held

/-! ## ExecutorManager.close (executors/__init__.py lines 132-137)

`close` iterates over `submit_tasks` cancelling each, then over
`processing_tasks` cancelling each.  It performs no other action: in
particular it does not touch the hand-off channel. -/

/-- The parts of the `ExecutorManager` state that `close` can reach. -/
structure EMState where
  submit_tasks : List Nat
  processing_tasks : List Nat
  channel : List Nat
  deriving DecidableEq, Repr

inductive CAct where
  | cancel (t : Nat)
  | release (x : Nat)
  deriving DecidableEq, Repr

/-- One `for task in tasks: task.cancel()` loop, with an accumulator for
the actions performed so far. -/
def cancelLoop (acc : List CAct) : List Nat → List CAct
  | [] => acc
  | t :: ts => cancelLoop (acc ++ [.cancel t]) ts

/-- `ExecutorManager.close`: cancel the submit tasks, then the processing
tasks; the state (notably the channel) is returned unchanged because the
method never mutates it. -/
def emClose (s : EMState) : List CAct × EMState :=
  let acts := cancelLoop (cancelLoop [] s.submit_tasks) s.processing_tasks
  (acts, s)

/-! ## Control-plane lock endpoint (worker_manager/api/lock.py, `post_lock`)

Queue rows are modelled as records carrying the assignment columns; time
is an integer number of minutes so that the 15-minute cutoff is
`now - 15`.  The stores `queues_store.get_assigned_queues` and
`queues_store.get_unassigned_queues` are not under `src/`; they are
modelled from the spec ("assignments expire if not refreshed within a
configurable cutoff (default 15 minutes); stale assignments are
reclaimable by other workers"). -/

structure QRec where
  name : String
  assigned_at : Option Int
  assigned_to : Option String
  deriving DecidableEq, Repr

/-- Modelled from the spec: `queues_store.get_assigned_queues` returns the
queues assigned to this worker whose assignment is fresher than the
cutoff. -/
def get_assigned_queues (db : List QRec) (worker : String)
    (assignedAfter : Int) : List QRec :=
  db.filter fun q =>
    decide (q.assigned_to = some worker) &&
      match q.assigned_at with
      | some t => decide (assignedAfter < t)
      | none => false

/-- Modelled from the spec: `queues_store.get_unassigned_queues` returns
up to `limit` queues that are unassigned or whose assignment is staler
than the cutoff (stale assignments are reclaimable by any worker). -/
def get_unassigned_queues (db : List QRec) (assignedBefore : Int)
    (limit : Nat) : List QRec :=
  (db.filter fun q =>
    match q.assigned_at with
    | some t => decide (t < assignedBefore)
    | none => true).take limit

/-- `max_assigned_items` from lock.py line 34. -/
def maxAssignedItems : Nat := 10

/-- Clear an assignment (`assigned_at = None; assigned_to = None`). -/
def clearAssign (q : QRec) : QRec :=
  { q with assigned_at := none, assigned_to := none }

/-- Refresh an assignment to the requesting worker at the given time. -/
def refreshAssign (worker : String) (now : Int) (q : QRec) : QRec :=
  { q with assigned_at := some now, assigned_to := some worker }

structure LockResult where
  items : List QRec
  db : List QRec

/-- `assignation_expiration_cutoff = datetime.now() - timedelta(minutes=15)`
with time measured in minutes. -/
def plCutoff (now : Int) : Int := now - 15

/-- The already-assigned items obtained at the top of `post_lock`. -/
def plAssigned (db : List QRec) (worker : String) (now : Int) : List QRec :=
  get_assigned_queues db worker (plCutoff now)

/-- `assigned_items[max_assigned_items:]`, the extra items that get
unassigned. -/
def plExtra (db : List QRec) (worker : String) (now : Int) : List QRec :=
  (plAssigned db worker now).drop maxAssignedItems

/-- The queue table after the extra items are unassigned. -/
def plDb1 (db : List QRec) (worker : String) (now : Int) : List QRec :=
  db.map fun q => if q ∈ plExtra db worker now then clearAssign q else q

/-- `assigned_items[:10]`, the retained already-assigned items. -/
def plRetained (db : List QRec) (worker : String) (now : Int) : List QRec :=
  (plAssigned db worker now).take maxAssignedItems

/-- The new queues obtained when there is remaining capacity. -/
def plNew (db : List QRec) (worker : String) (now : Int) : List QRec :=
  if (plRetained db worker now).length < maxAssignedItems then
    get_unassigned_queues (plDb1 db worker now) (plCutoff now)
      (maxAssignedItems - (plRetained db worker now).length)
  else []

/-- The full list of items to be returned, before the refresh. -/
def plItems0 (db : List QRec) (worker : String) (now : Int) : List QRec :=
  plRetained db worker now ++ plNew db worker now

/-- The queue table after the returned items are refreshed. -/
def plDb2 (db : List QRec) (worker : String) (now : Int) : List QRec :=
  (plDb1 db worker now).map fun q =>
    if q ∈ plItems0 db worker now then refreshAssign worker now q else q

/-- `post_lock` (lock.py lines 33-75), as a function of the queue table,
the requesting worker and the current time: fetch the live assignments of
this worker, unassign those beyond the tenth, keep the first ten, top up
with unassigned/stale queues up to the remaining capacity, and refresh
every returned item's `assigned_at`/`assigned_to`. -/
def post_lock (db : List QRec) (worker : String) (now : Int) : LockResult :=
  ⟨(plItems0 db worker now).map (refreshAssign worker now), plDb2 db worker now⟩

/-! ## Lock-response resources (lock.py lines 77-95)

For every returned queue item and every resource type its pipeline
declares, the endpoint looks the type up in the static definitions; a
missing type is logged and skipped; found instances are merged into a dict
keyed by resource name (later entries overwrite); the response lists the
dict's values sorted by name.  `static_definitions.resources_by_type` is
not under `src/` and is passed in as a function from type to instance
list (a missing type maps to the empty list, matching Python's falsy
check). -/

structure SRes where
  name : String
  type : String
  deriving DecidableEq, Repr

structure QueueItemSpec where
  name : String
  resourceTypes : List String
  deriving DecidableEq, Repr

/-- `dict.update` with a single key: replace in place when the name is
already a key, append otherwise. -/
def dictUpsert (d : List SRes) (r : SRes) : List SRes :=
  if d.any (fun x => x.name = r.name) then
    d.map fun x => if x.name = r.name then r else x
  else d ++ [r]

/-- `resources.update({r.name: r for r in pipeline_resources})`. -/
def upsertAll (d : List SRes) : List SRes → List SRes
  | [] => d
  | r :: rs => upsertAll (dictUpsert d r) rs

/-- Inner loop over a queue item's declared resource types: accumulate the
name-keyed dict and the warnings for missing types. -/
def collectTypes (rbt : String → List SRes) (d : List SRes) (warns : List String) :
    List String → List SRes × List String
  | [] => (d, warns)
  | ty :: tys =>
    if rbt ty = [] then collectTypes rbt d (warns ++ [ty]) tys
    else collectTypes rbt (upsertAll d (rbt ty)) warns tys

/-- Outer loop over the returned queue items. -/
def collectItems (rbt : String → List SRes) (d : List SRes) (warns : List String) :
    List QueueItemSpec → List SRes × List String
  | [] => (d, warns)
  | qi :: rest =>
    let p := collectTypes rbt d warns qi.resourceTypes
    collectItems rbt p.1 p.2 rest

/-- Name order on resources, used by `sorted(..., key=lambda r: r.name)`. -/
def resLE (a b : SRes) : Prop := a.name ≤ b.name

instance : DecidableRel resLE := fun a b => by
  unfold resLE; infer_instance

instance : IsTotal SRes resLE := ⟨fun a b => le_total a.name b.name⟩

instance : IsTrans SRes resLE := ⟨fun _ _ _ h h' => le_trans h h'⟩

/-- The `resources` field of the lock response: collected dict values
sorted by resource name, together with the warnings emitted for declared
types that have no instance. -/
def lockResources (rbt : String → List SRes) (items : List QueueItemSpec) :
    List SRes × List String :=
  let p := collectItems rbt [] [] items
  (p.1.insertionSort resLE, p.2)

/-! ## Concrete inputs used by counterexamples and witnesses -/

/-- A topic that declines non-waiting publishes and accepts waiting
ones. -/
def decliningTopic (i : Nat) : SaturnTopic :=
  ⟨i, fun _ wait => if wait then .accepted else .declined⟩

/-- Routing table sending every channel to two declining topics. -/
def twoDeclineRoutes : Nat → List (Option SaturnTopic) :=
  fun _ => [some (decliningTopic 1), some (decliningTopic 2)]

/-- Routing table sending every channel to one declining topic. -/
def oneDeclineRoutes : Nat → List (Option SaturnTopic) :=
  fun _ => [some (decliningTopic 1)]

/-- A single pipeline output on channel 0. -/
def singleOutput : List PipelineOutput := [⟨0, 0⟩]

/-- A queue table with twelve live assignments for worker `w`, one stale
assignment for worker `v` and one unassigned queue. -/
def lockDb : List QRec :=
  (List.range 12).map (fun i => ⟨"q" ++ toString i, some 100, some "w"⟩) ++
    [⟨"s1", some 0, some "v"⟩, ⟨"u1", none, none⟩]

/-- Static definitions with a single resource of type `t1`. -/
def rbt0 : String → List SRes :=
  fun ty => if ty = "t1" then [⟨"r1", "t1"⟩] else []

/-- One queue item declaring types `t1` (present) and `t2` (missing). -/
def qiItems : List QueueItemSpec := [⟨"q", ["t1", "t2"]⟩]

/-! # Theorems -/

/-! ## C1: order of sync mutations -/

/-- C1 counterexample: a sync that adds and drops the same queue and the
same task distinguishes the source's order (all adds, then all drops) from
the claimed order (queue/task drops before queue/task adds): the source
leaves the scheduler and task manager empty, the claimed order leaves the
added entries in place. -/
theorem applySync_order_cex :
    applySync (Q := Nat) (T := Nat) (R := Nat) ⟨[], [], []⟩
        ⟨⟨[0], [0]⟩, ⟨[0], [0]⟩, ⟨[], []⟩⟩ ≠
      applySyncClaimOrder ⟨[], [], []⟩ ⟨⟨[0], [0]⟩, ⟨[0], [0]⟩, ⟨[], []⟩⟩ := by
  decide

/-- C1 amended: `Broker.run_worker_manager` applies, within one sync, all
adds before all drops — for queues and tasks just as for resources.  Each
subsystem's resulting state is its adds applied first and its drops
applied second. -/
theorem applySync_adds_before_drops [DecidableEq Q] [DecidableEq T] [DecidableEq R]
    (s : BrokerState Q T R) (ws : WorkSync Q T R) :
    applySync s ws =
      { scheduler := ws.queues.drop.foldl schedulerRemove
          (ws.queues.add.foldl schedulerAdd s.scheduler),
        taskManager := ws.tasks.drop.foldl schedulerRemove
          (ws.tasks.add.foldl schedulerAdd s.taskManager),
        resourcesManager := ws.resources.drop.foldl schedulerRemove
          (ws.resources.add.foldl schedulerAdd s.resourcesManager) } := by
  rfl

/-! ## C3: ExecutorManager.close -/

/-- Unfolding of the cancellation loop. -/
theorem cancelLoop_eq (ts : List Nat) (acc : List CAct) :
    cancelLoop acc ts = acc ++ ts.map CAct.cancel := by
  induction ts generalizing acc with
  | nil => simp [cancelLoop]
  | cons t ts ih => simp [cancelLoop, ih]

/-- C3 counterexample: with one pending submit task, one worker task and
one message left in the hand-off channel, `close` cancels both tasks but
releases nothing and leaves the channel untouched. -/
theorem emClose_no_drain_cex :
    (emClose ⟨[7], [8], [5]⟩).1 = [.cancel 7, .cancel 8] ∧
      CAct.release 5 ∉ (emClose ⟨[7], [8], [5]⟩).1 ∧
      (emClose ⟨[7], [8], [5]⟩).2.channel = [5] := by
  refine ⟨?_, ?_, ?_⟩ <;> decide

/-- C3 amended: `ExecutorManager.close` cancels every pending background
acquisition task and every worker task, and does nothing else: it does not
drain the hand-off channel and releases no xmsg. -/
theorem emClose_cancels_only (s : EMState) :
    (emClose s).1 = (s.submit_tasks ++ s.processing_tasks).map CAct.cancel ∧
      (emClose s).2 = s ∧
      ∀ x, CAct.release x ∉ (emClose s).1 := by
  refine ⟨?_, rfl, ?_⟩
  · simp [emClose, cancelLoop_eq]
  · intro x hx
    simp only [emClose, cancelLoop_eq, List.nil_append, ← List.map_append] at hx
    rcases List.mem_map.mp hx with ⟨t, -, ht⟩
    exact CAct.noConfusion ht

/-- C3 witness: the amended close behaviour at a concrete manager
state. -/
theorem emClose_cancels_only_witness :
    (emClose ⟨[1], [2], [3]⟩).1 = ([1] ++ [2]).map CAct.cancel ∧
      (emClose ⟨[1], [2], [3]⟩).2 = ⟨[1], [2], [3]⟩ ∧
      CAct.release 3 ∉ (emClose ⟨[1], [2], [3]⟩).1 :=
  ⟨(emClose_cancels_only ⟨[1], [2], [3]⟩).1, (emClose_cancels_only ⟨[1], [2], [3]⟩).2.1,
    (emClose_cancels_only ⟨[1], [2], [3]⟩).2.2 3⟩

/-! ## C4: ExecutorManager.submit -/

/-- C4: `submit` never propagates `ResourceUnavailable`; when the
non-waiting acquisition succeeds (or nothing is missing) it pushes the
xmsg straight into the hand-off channel, otherwise it parks the source
queue and spawns a background task that acquires with `wait=True`, unparks
and then pushes. -/
theorem submit_fastpath_slowpath (beh : List String → Except Unit Unit) (x : XMsg) :
    submit beh x =
      .ok (if fastPathOk beh x then ([.acqTry true, .push], [])
           else ([.acqTry false, .park, .spawnDelayed], [.acqWait, .unpark, .push])) := by
  rcases hm : x.missing with - | ⟨r, rs⟩
  · simp [submit, acquire_resources, fastPathOk, hm, delayed_submit, acquire_many]
  · cases hb : beh (r :: rs) with
    | error e =>
      simp [submit, acquire_resources, fastPathOk, hm, hb, delayed_submit, acquire_many]
    | ok v =>
      simp [submit, acquire_resources, fastPathOk, hm, hb, delayed_submit, acquire_many]

/-! ## C6: pool size, channel capacity, backpressure bound -/

/-- Invariant of the saturated executor system: the slot never exceeds the
channel capacity and workers never hold more than `c` messages. -/
theorem bpReach_invariant {c : Nat} {s : BPState} (h : BPReach c s) :
    s.slot ≤ handoffCapacity ∧ s.held ≤ c := by
  induction h with
  | init => exact ⟨Nat.zero_le _, Nat.zero_le _⟩
  | step _ hstep ih =>
    cases hstep with
    | put hlt => exact ⟨hlt, ih.2⟩
    | take hs hh => exact ⟨Nat.le_trans (Nat.sub_le _ _) ih.1, hh⟩

/-- C6: the hand-off channel has capacity 1, `start` spawns exactly
`concurrency` worker tasks, and with an executor that never completes at
most `c + 1` xmsgs are ever accepted from the scheduler. -/
theorem executor_backpressure_bound (c : Nat) (s : BPState) (h : BPReach c s) :
    handoffCapacity = 1 ∧ (startTasks c).length = c ∧ accepted s ≤ c + 1 := by
  obtain ⟨h1, h2⟩ := bpReach_invariant h
  refine ⟨rfl, by simp [startTasks], ?_⟩
  have : s.slot + s.held ≤ handoffCapacity + c := Nat.add_le_add h1 h2
  simpa [accepted, handoffCapacity, Nat.add_comm] using this

/-- C6 witness: instantiating the backpressure bound for a pool of two
workers at the initial state. -/
theorem executor_backpressure_bound_witness :
    handoffCapacity = 1 ∧ (startTasks 2).length = 2 ∧ accepted ⟨0, 0⟩ ≤ 2 + 1 :=
  executor_backpressure_bound 2 ⟨0, 0⟩ BPReach.init

/-! ## C2 / C9: consume_output fan-out and park/unpark accounting -/

/-- The inner publish loop never unparks, parks exactly once per declined
non-waiting publish, and issues exactly one waiting publish per declined
non-waiting publish. -/
theorem publishTopics_counts (m : Nat) (ts : List (Option SaturnTopic)) :
    countUnpark (publishTopics m ts).1 = 0 ∧
      countPark (publishTopics m ts).1 = countDeclinedFirst (publishTopics m ts).1 ∧
      countWaitPub (publishTopics m ts).1 = countDeclinedFirst (publishTopics m ts).1 := by
  induction ts with
  | nil => simp [publishTopics, countUnpark, countPark, countDeclinedFirst, countWaitPub]
  | cons t ts ih =>
    obtain ⟨ih1, ih2, ih3⟩ := ih
    cases t with
    | none => simpa [publishTopics] using ⟨ih1, ih2, ih3⟩
    | some t =>
      cases h1 : t.beh m false with
      | raised =>
        simp [publishTopics, h1, countUnpark, countPark, countDeclinedFirst, countWaitPub]
      | accepted =>
        simp only [publishTopics, h1, countUnpark, countPark, countDeclinedFirst,
          countWaitPub, List.countP_cons] at *
        simp_all
      | declined =>
        cases h2 : t.beh m true with
        | raised =>
          simp [publishTopics, h1, h2, countUnpark, countPark, countDeclinedFirst,
            countWaitPub]
        | accepted =>
          simp only [publishTopics, h1, h2, countUnpark, countPark, countDeclinedFirst,
            countWaitPub, List.countP_cons] at *
          simp_all
        | declined =>
          simp only [publishTopics, h1, h2, countUnpark, countPark, countDeclinedFirst,
            countWaitPub, List.countP_cons] at *
          simp_all

/-- Every waiting publish in the inner loop's trace is to a topic whose
non-waiting publish declined the same message. -/
theorem publishTopics_wait_mem (m : Nat) (ts : List (Option SaturnTopic))
    (t' m' : Nat) (r : PubRes) :
    OAct.pub t' m' true r ∈ (publishTopics m ts).1 →
      OAct.pub t' m' false .declined ∈ (publishTopics m ts).1 := by
  induction ts with
  | nil => simp [publishTopics]
  | cons t ts ih =>
    cases t with
    | none => simpa [publishTopics] using ih
    | some t =>
      cases h1 : t.beh m false with
      | raised => simp [publishTopics, h1]
      | accepted =>
        intro hmem
        simp only [publishTopics, h1, List.mem_cons] at hmem ⊢
        rcases hmem with h | h
        · exact absurd h (by simp)
        · exact Or.inr (ih h)
      | declined =>
        cases h2 : t.beh m true with
        | raised =>
          intro hmem
          simp only [publishTopics, h1, h2, List.mem_cons] at hmem ⊢
          rcases hmem with h | h | h | h
          · exact absurd h (by simp)
          · exact absurd h (by simp)
          · obtain ⟨he1, he2, -⟩ := by
              simpa using h
            subst he1; subst he2
            simp
          · simp at h
        | accepted =>
          intro hmem
          simp only [publishTopics, h1, h2, List.mem_cons] at hmem ⊢
          rcases hmem with h | h | h | h
          · exact absurd h (by simp)
          · exact absurd h (by simp)
          · obtain ⟨he1, he2, -⟩ := by
              simpa using h
            subst he1; subst he2
            simp
          · exact Or.inr (Or.inr (Or.inr (ih h)))
        | declined =>
          intro hmem
          simp only [publishTopics, h1, h2, List.mem_cons] at hmem ⊢
          rcases hmem with h | h | h | h
          · exact absurd h (by simp)
          · exact absurd h (by simp)
          · obtain ⟨he1, he2, -⟩ := by
              simpa using h
            subst he1; subst he2
            simp
          · exact Or.inr (Or.inr (Or.inr (ih h)))

/-- Lifting of the publish-loop accounting to the outer item loop. -/
theorem consumeItems_counts (routes : Nat → List (Option SaturnTopic))
    (output : List PipelineOutput) :
    countUnpark (consumeItems routes output).1 = 0 ∧
      countPark (consumeItems routes output).1 =
        countDeclinedFirst (consumeItems routes output).1 ∧
      countWaitPub (consumeItems routes output).1 =
        countDeclinedFirst (consumeItems routes output).1 := by
  induction output with
  | nil => simp [consumeItems, countUnpark, countPark, countDeclinedFirst, countWaitPub]
  | cons item rest ih =>
    obtain ⟨ih1, ih2, ih3⟩ := ih
    obtain ⟨p1, p2, p3⟩ := publishTopics_counts item.message (routes item.channel)
    by_cases hp : (publishTopics item.message (routes item.channel)).2
    · simp only [consumeItems, hp, if_true, countUnpark, countPark, countDeclinedFirst,
        countWaitPub, List.countP_append] at *
      omega
    · simp only [consumeItems, hp, if_false, Bool.false_eq_true] at *
      exact ⟨p1, p2, p3⟩

/-- Lifting of the waiting-publish membership property to the item
loop. -/
theorem consumeItems_wait_mem (routes : Nat → List (Option SaturnTopic))
    (output : List PipelineOutput) (t' m' : Nat) (r : PubRes) :
    OAct.pub t' m' true r ∈ (consumeItems routes output).1 →
      OAct.pub t' m' false .declined ∈ (consumeItems routes output).1 := by
  induction output with
  | nil => simp [consumeItems]
  | cons item rest ih =>
    by_cases hp : (publishTopics item.message (routes item.channel)).2
    · intro hmem
      simp only [consumeItems, hp, if_true, List.mem_append] at hmem ⊢
      rcases hmem with h | h
      · exact Or.inl (publishTopics_wait_mem _ _ _ _ _ h)
      · exact Or.inr (ih h)
    · intro hmem
      simp only [consumeItems, hp, if_false, Bool.false_eq_true] at hmem ⊢
      exact publishTopics_wait_mem _ _ _ _ _ hmem

/-- C9: in `consume_output`, `unpark` is called exactly once and is the
last action on every exit path (publish raising included); `park` is
called exactly once per declined non-waiting publish; one waiting publish
is issued per declined non-waiting publish; and every waiting publish goes
to a topic whose non-waiting publish declined the same message. -/
theorem consume_output_fanout_spec (routes : Nat → List (Option SaturnTopic))
    (output : List PipelineOutput) :
    countUnpark (consume_output routes output).1 = 1 ∧
      (consume_output routes output).1.getLast? = some .unpark ∧
      countPark (consume_output routes output).1 =
        countDeclinedFirst (consume_output routes output).1 ∧
      countWaitPub (consume_output routes output).1 =
        countDeclinedFirst (consume_output routes output).1 ∧
      ∀ t' m' r, OAct.pub t' m' true r ∈ (consume_output routes output).1 →
        OAct.pub t' m' false .declined ∈ (consume_output routes output).1 := by
  obtain ⟨c1, c2, c3⟩ := consumeItems_counts routes output
  refine ⟨?_, ?_, ?_, ?_, ?_⟩
  · simpa [consume_output, countUnpark, List.countP_append] using c1
  · simp [consume_output]
  · simpa [consume_output, countPark, countDeclinedFirst, List.countP_append] using c2
  · simpa [consume_output, countWaitPub, countDeclinedFirst, List.countP_append] using c3
  · intro t' m' r hmem
    simp only [consume_output, List.mem_append, List.mem_singleton] at hmem ⊢
    rcases hmem with h | h
    · exact Or.inl (consumeItems_wait_mem _ _ _ _ _ h)
    · exact absurd h (by simp)

/-- C9 witness: with one declining topic the waiting publish in the trace
is indeed preceded by a declined non-waiting publish. -/
theorem consume_output_fanout_spec_witness :
    OAct.pub 1 0 true .accepted ∈ (consume_output oneDeclineRoutes singleOutput).1 ∧
      OAct.pub 1 0 false .declined ∈ (consume_output oneDeclineRoutes singleOutput).1 :=
  ⟨by decide,
    (consume_output_fanout_spec oneDeclineRoutes singleOutput).2.2.2.2 1 0 .accepted
      (by decide)⟩

/-- C2 counterexample: when the two topics of one output item both decline
the non-waiting publish, `consume_output` parks the source queue twice but
unparks it only once, so the park depth does not return to zero. -/
theorem consume_output_park_symmetry_cex :
    countPark (consume_output twoDeclineRoutes singleOutput).1 = 2 ∧
      countUnpark (consume_output twoDeclineRoutes singleOutput).1 = 1 ∧
      countPark (consume_output twoDeclineRoutes singleOutput).1 ≠
        countUnpark (consume_output twoDeclineRoutes singleOutput).1 := by
  refine ⟨?_, ?_, ?_⟩ <;> decide

/-- C2 amended: one run of `consume_output` calls `unpark` exactly once
and calls `park` once per topic that declines the non-waiting publish, so
the park and unpark call counts agree precisely when exactly one
non-waiting publish declined. -/
theorem consume_output_park_symmetry_amended (routes : Nat → List (Option SaturnTopic))
    (output : List PipelineOutput) :
    countUnpark (consume_output routes output).1 = 1 ∧
      countPark (consume_output routes output).1 =
        countDeclinedFirst (consume_output routes output).1 ∧
      (countPark (consume_output routes output).1 =
          countUnpark (consume_output routes output).1 ↔
        countDeclinedFirst (consume_output routes output).1 = 1) := by
  obtain ⟨c1, c2, -⟩ := consumeItems_counts routes output
  have h1 : countUnpark (consume_output routes output).1 = 1 := by
    simpa [consume_output, countUnpark, List.countP_append] using c1
  have h2 : countPark (consume_output routes output).1 =
      countDeclinedFirst (consume_output routes output).1 := by
    simpa [consume_output, countPark, countDeclinedFirst, List.countP_append] using c2
  refine ⟨h1, h2, ?_⟩
  rw [h1, h2]

/-! ## C5: worker failure isolation in run_queue -/

/-- Every dequeued message has its scoped context entered and exited by
the worker loop. -/
theorem run_queue_scopes (exec : Nat → Except Unit Unit) (msgs : List Nat)
    (y : Nat) (hy : y ∈ msgs) :
    WAct.enter y ∈ run_queue exec msgs ∧ WAct.exitScope y ∈ run_queue exec msgs := by
  induction msgs with
  | nil => cases hy
  | cons z rest ih =>
    rcases List.mem_cons.mp hy with h | h
    · subst h
      cases hz : exec y <;>
        simp [run_queue, hz]
    · have := ih h
      cases hz : exec z <;>
        simp only [run_queue, hz, List.mem_append, List.mem_cons] <;>
        exact ⟨Or.inr this.1, Or.inr this.2⟩

/-- A message whose execution fails never gets an output-consumption
task. -/
theorem run_queue_no_consume_of_fail (exec : Nat → Except Unit Unit)
    (msgs : List Nat) (x : Nat) (hfail : exec x = .error ()) :
    WAct.spawnConsume x ∉ run_queue exec msgs := by
  induction msgs with
  | nil => simp [run_queue]
  | cons z rest ih =>
    cases hz : exec z with
    | error e =>
      intro hmem
      simp only [run_queue, hz, List.mem_append, List.mem_cons, List.not_mem_nil,
        or_false, false_or, reduceCtorEq] at hmem
      exact ih hmem
    | ok v =>
      intro hmem
      simp only [run_queue, hz, List.mem_append, List.mem_cons, List.not_mem_nil,
        or_false, false_or, reduceCtorEq, WAct.spawnConsume.injEq] at hmem
      rcases hmem with rfl | h
      · rw [hfail] at hz
        cases hz
      · exact ih h

/-- C5: when `process_message` raises for a dequeued message, the worker
logs the failure, exits the message's scoped context (releasing its
resources), never spawns an output-consumption task for it, and still
enters and exits the scope of every other dequeued message — the loop
keeps running. -/
theorem run_queue_failure_isolation (exec : Nat → Except Unit Unit)
    (msgs : List Nat) (x : Nat) (hx : x ∈ msgs) (hfail : exec x = .error ()) :
    WAct.logFail x ∈ run_queue exec msgs ∧
      WAct.exitScope x ∈ run_queue exec msgs ∧
      WAct.spawnConsume x ∉ run_queue exec msgs ∧
      ∀ y ∈ msgs, WAct.enter y ∈ run_queue exec msgs ∧
        WAct.exitScope y ∈ run_queue exec msgs := by
  refine ⟨?_, (run_queue_scopes exec msgs x hx).2,
    run_queue_no_consume_of_fail exec msgs x hfail,
    fun y hy => run_queue_scopes exec msgs y hy⟩
  induction msgs with
  | nil => cases hx
  | cons z rest ih =>
    rcases List.mem_cons.mp hx with h | h
    · subst h
      simp [run_queue, hfail]
    · cases hz : exec z <;> simp [run_queue, hz, ih h]

/-- C5 witness: a worker given messages 0, 1, 2 where message 1 fails
still processes every message, logs and scopes the failure, and spawns no
output task for it. -/
theorem run_queue_failure_isolation_witness :
    WAct.logFail 1 ∈ run_queue (fun n => if n = 1 then .error () else .ok ()) [0, 1, 2] ∧
      WAct.exitScope 1 ∈ run_queue (fun n => if n = 1 then .error () else .ok ()) [0, 1, 2] ∧
      WAct.spawnConsume 1 ∉ run_queue (fun n => if n = 1 then .error () else .ok ()) [0, 1, 2] ∧
      ∀ y ∈ [0, 1, 2],
        WAct.enter y ∈ run_queue (fun n => if n = 1 then .error () else .ok ()) [0, 1, 2] ∧
          WAct.exitScope y ∈ run_queue (fun n => if n = 1 then .error () else .ok ()) [0, 1, 2] :=
  run_queue_failure_isolation (fun n => if n = 1 then .error () else .ok ())
    [0, 1, 2] 1 (by decide) rfl

/-! ## C7 / C8: control-plane lock endpoint -/

/-- Characterisation of the modelled `get_assigned_queues`: members are
rows of the table assigned to the requesting worker strictly after the
cutoff. -/
theorem mem_get_assigned_queues {db : List QRec} {worker : String} {c : Int}
    {q : QRec} (h : q ∈ get_assigned_queues db worker c) :
    q ∈ db ∧ q.assigned_to = some worker ∧ ∃ t, q.assigned_at = some t ∧ c < t := by
  rcases List.mem_filter.mp h with ⟨hdb, hcond⟩
  rw [Bool.and_eq_true] at hcond
  obtain ⟨h1, h2⟩ := hcond
  refine ⟨hdb, by simpa using h1, ?_⟩
  cases hq : q.assigned_at with
  | none => rw [hq] at h2; cases h2
  | some t => rw [hq] at h2; exact ⟨t, rfl, by simpa using h2⟩

/-- Characterisation of the modelled `get_unassigned_queues`: members are
rows of the table that are unassigned or whose assignment is strictly
before the cutoff, with no condition on the previous assignee. -/
theorem mem_get_unassigned_queues {db : List QRec} {c : Int} {l : Nat}
    {q : QRec} (h : q ∈ get_unassigned_queues db c l) :
    q ∈ db ∧ (q.assigned_at = none ∨ ∃ t, q.assigned_at = some t ∧ t < c) := by
  have h' := List.take_subset _ _ h
  rcases List.mem_filter.mp h' with ⟨hdb, hcond⟩
  cases hq : q.assigned_at with
  | none => exact ⟨hdb, Or.inl rfl⟩
  | some t =>
    rw [hq] at hcond
    exact ⟨hdb, Or.inr ⟨t, rfl, by simpa using hcond⟩⟩

/-- The retained already-assigned list never exceeds the cap. -/
theorem plRetained_length_le (db : List QRec) (worker : String) (now : Int) :
    (plRetained db worker now).length ≤ maxAssignedItems := by
  simp [plRetained, List.length_take]

/-- When there are extra items to unassign, no new queues are fetched. -/
theorem plNew_eq_nil_of_extra {db : List QRec} {worker : String} {now : Int}
    (h : plExtra db worker now ≠ []) : plNew db worker now = [] := by
  have hlen : maxAssignedItems < (plAssigned db worker now).length := by
    by_contra hle
    exact h (List.drop_eq_nil_of_le (Nat.le_of_not_lt hle))
  have : (plRetained db worker now).length = maxAssignedItems := by
    simp [plRetained, List.length_take]
    omega
  simp [plNew, this]

/-- C7: the endpoint returns at most `max_assigned_items = 10` queue
items; already-assigned items beyond the tenth end up unassigned in the
table; the retained assigned items are all returned; and new queues are
added only within the remaining capacity (the total never exceeds 10). -/
theorem post_lock_item_cap (db : List QRec) (worker : String) (now : Int) :
    (post_lock db worker now).items.length ≤ maxAssignedItems ∧
      (∀ q ∈ plExtra db worker now, clearAssign q ∈ (post_lock db worker now).db) ∧
      ∀ q ∈ plRetained db worker now,
        refreshAssign worker now q ∈ (post_lock db worker now).items := by
  refine ⟨?_, ?_, ?_⟩
  · by_cases hlt : (plRetained db worker now).length < maxAssignedItems
    · have hnew : (plNew db worker now).length ≤
          maxAssignedItems - (plRetained db worker now).length := by
        simp only [plNew, hlt, if_true, get_unassigned_queues, List.length_take]
        exact Nat.min_le_left _ _
      simp only [post_lock, plItems0, List.length_map, List.length_append]
      omega
    · simp only [post_lock, plItems0, plNew, hlt, if_false, List.length_map,
        List.length_append, List.length_nil, Nat.add_zero]
      exact plRetained_length_le db worker now
  · intro q hq
    have hA : q ∈ plAssigned db worker now := List.drop_subset _ _ hq
    have hdb : q ∈ db := (mem_get_assigned_queues hA).1
    have hworker : q.assigned_to = some worker := (mem_get_assigned_queues hA).2.1
    have hdb1 : clearAssign q ∈ plDb1 db worker now :=
      List.mem_map.mpr ⟨q, hdb, by simp [hq]⟩
    have hnew : plNew db worker now = [] :=
      plNew_eq_nil_of_extra (List.ne_nil_of_mem hq)
    have hnot : clearAssign q ∉ plItems0 db worker now := by
      intro hmem
      rw [plItems0, hnew, List.append_nil] at hmem
      have := (mem_get_assigned_queues (List.take_subset _ _ hmem)).2.1
      simp [clearAssign] at this
    exact List.mem_map.mpr ⟨clearAssign q, hdb1, by simp [hnot]⟩
  · intro q hq
    exact List.mem_map.mpr ⟨q, List.mem_append_left _ hq, rfl⟩

/-- C8: an assignment counts as live only when `assigned_at` is strictly
after `now - 15`; every returned item is refreshed to the request time and
to the requesting worker; and every returned item originates either from
the requester's live assignments or from the pool of unassigned/stale
queues (the latter regardless of the previous assignee). -/
theorem post_lock_cutoff_refresh (db : List QRec) (worker : String) (now : Int) :
    (∀ q ∈ get_assigned_queues db worker (now - 15),
        q.assigned_to = some worker ∧ ∃ t, q.assigned_at = some t ∧ now - 15 < t) ∧
      (∀ q ∈ (post_lock db worker now).items,
        q.assigned_at = some now ∧ q.assigned_to = some worker) ∧
      ∀ q ∈ (post_lock db worker now).items,
        ∃ q0, q = refreshAssign worker now q0 ∧
          (q0 ∈ get_assigned_queues db worker (now - 15) ∨
            q0.assigned_at = none ∨ ∃ t, q0.assigned_at = some t ∧ t < now - 15) := by
  refine ⟨fun q h => (mem_get_assigned_queues h).2, ?_, ?_⟩
  · intro q hq
    obtain ⟨q0, -, rfl⟩ := List.mem_map.mp hq
    simp [refreshAssign]
  · intro q hq
    obtain ⟨q0, h0, rfl⟩ := List.mem_map.mp hq
    refine ⟨q0, rfl, ?_⟩
    rcases List.mem_append.mp h0 with h | h
    · exact Or.inl (List.take_subset _ _ h)
    · by_cases hlt : (plRetained db worker now).length < maxAssignedItems
      · rw [plNew, if_pos hlt] at h
        exact Or.inr (mem_get_unassigned_queues h).2
      · rw [plNew, if_neg hlt] at h
        cases h

/-- C7 witness: with twelve live assignments for worker `w`, the lock
response keeps at most ten and the eleventh row is unassigned in the
table. -/
theorem post_lock_item_cap_witness :
    (post_lock lockDb "w" 100).items.length ≤ maxAssignedItems ∧
      clearAssign ⟨"q10", some 100, some "w"⟩ ∈ (post_lock lockDb "w" 100).db :=
  ⟨(post_lock_item_cap lockDb "w" 100).1,
    (post_lock_item_cap lockDb "w" 100).2.1 ⟨"q10", some 100, some "w"⟩ (by decide)⟩

/-- C8 witness: a live assignment of worker `w` satisfies the strict
cutoff characterisation. -/
theorem post_lock_cutoff_refresh_witness :
    (⟨"q0", some 100, some "w"⟩ : QRec).assigned_to = some "w" ∧
      ∃ t, (⟨"q0", some 100, some "w"⟩ : QRec).assigned_at = some t ∧
        (100 : Int) - 15 < t :=
  (post_lock_cutoff_refresh lockDb "w" 100).1 ⟨"q0", some 100, some "w"⟩ (by decide)

/-! ## C10: lock-response resources -/

/-- Updating the name-keyed dict keeps the key list duplicate-free. -/
theorem dictUpsert_names_nodup {d : List SRes} {r : SRes}
    (h : (d.map SRes.name).Nodup) : ((dictUpsert d r).map SRes.name).Nodup := by
  by_cases hany : d.any (fun x => x.name = r.name)
  · have heq : (d.map fun x => if x.name = r.name then r else x).map SRes.name =
        d.map SRes.name := by
      rw [List.map_map]
      apply List.map_congr_left
      intro x hx
      by_cases hxr : x.name = r.name
      · simp [hxr, Function.comp]
      · simp [hxr, Function.comp]
    simpa [dictUpsert, hany, heq] using h
  · have hnotin : r.name ∉ d.map SRes.name := by
      intro hmem
      obtain ⟨x, hx, hxr⟩ := List.mem_map.mp hmem
      exact hany (List.any_eq_true.mpr ⟨x, hx, by simp [hxr]⟩)
    rw [dictUpsert, if_neg hany, List.map_append, List.map_cons, List.map_nil,
      List.nodup_append]
    exact ⟨h, List.nodup_singleton _, by
      intro a ha hb
      simp only [List.mem_singleton] at hb
      subst hb
      exact hnotin ha⟩

/-- Every element of the updated dict comes from the dict or is the new
entry. -/
theorem mem_dictUpsert {d : List SRes} {r x : SRes} (h : x ∈ dictUpsert d r) :
    x ∈ d ∨ x = r := by
  by_cases hany : d.any (fun y => y.name = r.name)
  · rw [dictUpsert, if_pos hany] at h
    obtain ⟨y, hy, hxy⟩ := List.mem_map.mp h
    by_cases hyr : y.name = r.name
    · rw [if_pos hyr] at hxy
      exact Or.inr hxy.symm
    · rw [if_neg hyr] at hxy
      exact Or.inl (hxy ▸ hy)
  · rw [dictUpsert, if_neg hany] at h
    rcases List.mem_append.mp h with h | h
    · exact Or.inl h
    · exact Or.inr (List.mem_singleton.mp h)

/-- `upsertAll` keeps the key list duplicate-free. -/
theorem upsertAll_names_nodup {d : List SRes} {rs : List SRes}
    (h : (d.map SRes.name).Nodup) : ((upsertAll d rs).map SRes.name).Nodup := by
  induction rs generalizing d with
  | nil => exact h
  | cons r rs ih => exact ih (dictUpsert_names_nodup h)

/-- Every element of `upsertAll d rs` comes from `d` or from `rs`. -/
theorem mem_upsertAll {d rs : List SRes} {x : SRes} (h : x ∈ upsertAll d rs) :
    x ∈ d ∨ x ∈ rs := by
  induction rs generalizing d with
  | nil => exact Or.inl h
  | cons r rs ih =>
    rcases ih h with h' | h'
    · rcases mem_dictUpsert h' with h'' | h''
      · exact Or.inl h''
      · exact Or.inr (h'' ▸ List.mem_cons_self r rs)
    · exact Or.inr (List.mem_cons_of_mem r h')

/-- The per-item type loop keeps the key list duplicate-free. -/
theorem collectTypes_names_nodup (rbt : String → List SRes) (tys : List String)
    {d : List SRes} (warns : List String) (h : (d.map SRes.name).Nodup) :
    (((collectTypes rbt d warns tys).1).map SRes.name).Nodup := by
  induction tys generalizing d warns with
  | nil => exact h
  | cons ty tys ih =>
    by_cases hty : rbt ty = []
    · rw [collectTypes, if_pos hty]
      exact ih _ h
    · rw [collectTypes, if_neg hty]
      exact ih _ (upsertAll_names_nodup h)

/-- Every resource accumulated by the type loop comes from the
accumulator or from the static definitions of one of the listed types. -/
theorem mem_collectTypes (rbt : String → List SRes) (tys : List String)
    {d : List SRes} (warns : List String) {x : SRes}
    (h : x ∈ (collectTypes rbt d warns tys).1) :
    x ∈ d ∨ ∃ ty ∈ tys, x ∈ rbt ty := by
  induction tys generalizing d warns with
  | nil => exact Or.inl h
  | cons ty tys ih =>
    by_cases hty : rbt ty = []
    · rw [collectTypes, if_pos hty] at h
      rcases ih _ h with h' | ⟨ty', hty', hx⟩
      · exact Or.inl h'
      · exact Or.inr ⟨ty', List.mem_cons_of_mem ty hty', hx⟩
    · rw [collectTypes, if_neg hty] at h
      rcases ih _ h with h' | ⟨ty', hty', hx⟩
      · rcases mem_upsertAll h' with h'' | h''
        · exact Or.inl h''
        · exact Or.inr ⟨ty, List.mem_cons_self ty tys, h''⟩
      · exact Or.inr ⟨ty', List.mem_cons_of_mem ty hty', hx⟩

/-- Warnings only grow during the type loop. -/
theorem collectTypes_warns_mono (rbt : String → List SRes) (tys : List String)
    {d : List SRes} {warns : List String} {s : String} (h : s ∈ warns) :
    s ∈ (collectTypes rbt d warns tys).2 := by
  induction tys generalizing d warns with
  | nil => exact h
  | cons ty tys ih =>
    by_cases hty : rbt ty = []
    · rw [collectTypes, if_pos hty]
      exact ih (List.mem_append_left _ h)
    · rw [collectTypes, if_neg hty]
      exact ih h

/-- A declared type with no instance is reported in the warnings. -/
theorem collectTypes_warn_of_missing (rbt : String → List SRes) (tys : List String)
    {d : List SRes} (warns : List String) {ty : String} (hmem : ty ∈ tys)
    (hmiss : rbt ty = []) : ty ∈ (collectTypes rbt d warns tys).2 := by
  induction tys generalizing d warns with
  | nil => cases hmem
  | cons ty' tys ih =>
    rcases List.mem_cons.mp hmem with rfl | h
    · rw [collectTypes, if_pos hmiss]
      exact collectTypes_warns_mono rbt tys (List.mem_append_right _ (List.mem_singleton.mpr rfl))
    · by_cases hty' : rbt ty' = []
      · rw [collectTypes, if_pos hty']
        exact ih _ h
      · rw [collectTypes, if_neg hty']
        exact ih _ h

/-- The item loop keeps the key list duplicate-free. -/
theorem collectItems_names_nodup (rbt : String → List SRes)
    (items : List QueueItemSpec) {d : List SRes} (warns : List String)
    (h : (d.map SRes.name).Nodup) :
    (((collectItems rbt d warns items).1).map SRes.name).Nodup := by
  induction items generalizing d warns with
  | nil => exact h
  | cons qi rest ih =>
    rw [collectItems]
    exact ih _ (collectTypes_names_nodup rbt qi.resourceTypes warns h)

/-- Every resource accumulated by the item loop comes from the
accumulator or from the static definitions of a type declared by one of
the items. -/
theorem mem_collectItems (rbt : String → List SRes) (items : List QueueItemSpec)
    {d : List SRes} (warns : List String) {x : SRes}
    (h : x ∈ (collectItems rbt d warns items).1) :
    x ∈ d ∨ ∃ qi ∈ items, ∃ ty ∈ qi.resourceTypes, x ∈ rbt ty := by
  induction items generalizing d warns with
  | nil => exact Or.inl h
  | cons qi rest ih =>
    rw [collectItems] at h
    rcases ih _ h with h' | ⟨qi', hqi', hty⟩
    · rcases mem_collectTypes rbt qi.resourceTypes warns h' with h'' | ⟨ty, hty, hx⟩
      · exact Or.inl h''
      · exact Or.inr ⟨qi, List.mem_cons_self qi rest, ty, hty, hx⟩
    · exact Or.inr ⟨qi', List.mem_cons_of_mem qi hqi', hty⟩

/-- Warnings only grow during the item loop. -/
theorem collectItems_warns_mono (rbt : String → List SRes)
    (items : List QueueItemSpec) {d : List SRes} {warns : List String}
    {s : String} (h : s ∈ warns) : s ∈ (collectItems rbt d warns items).2 := by
  induction items generalizing d warns with
  | nil => exact h
  | cons qi rest ih =>
    rw [collectItems]
    exact ih (collectTypes_warns_mono rbt qi.resourceTypes h)

/-- A type declared by any processed item that has no instance in the
static definitions ends up in the warnings. -/
theorem collectItems_warn_of_missing (rbt : String → List SRes)
    (items : List QueueItemSpec) {d : List SRes} {warns : List String}
    {qi : QueueItemSpec} {ty : String} (hqi : qi ∈ items)
    (hty : ty ∈ qi.resourceTypes) (hmiss : rbt ty = []) :
    ty ∈ (collectItems rbt d warns items).2 := by
  induction items generalizing d warns with
  | nil => cases hqi
  | cons qi' rest ih =>
    rcases List.mem_cons.mp hqi with rfl | h'
    · rw [collectItems]
      exact collectItems_warns_mono rbt rest
        (collectTypes_warn_of_missing rbt qi.resourceTypes warns hty hmiss)
    · rw [collectItems]
      exact ih h'

/-- C10: the `resources` list of the lock response holds at most one
resource per name, is sorted in ascending name order, contains only
resources whose type is declared by one of the returned queue items, and
every declared type with no instance in the static definitions is reported
as a warning rather than failing the request. -/
theorem lockResources_spec (rbt : String → List SRes) (items : List QueueItemSpec)
    (h : ∀ ty r, r ∈ rbt ty → r.type = ty) :
    (((lockResources rbt items).1).map SRes.name).Nodup ∧
      List.Sorted resLE (lockResources rbt items).1 ∧
      (∀ r ∈ (lockResources rbt items).1,
        ∃ qi ∈ items, r.type ∈ qi.resourceTypes) ∧
      ∀ qi ∈ items, ∀ ty ∈ qi.resourceTypes, rbt ty = [] →
        ty ∈ (lockResources rbt items).2 := by
  refine ⟨?_, ?_, ?_, ?_⟩
  · have hperm : (lockResources rbt items).1.Perm (collectItems rbt [] [] items).1 :=
      List.perm_insertionSort resLE _
    exact ((hperm.map SRes.name).nodup_iff).mpr
      (collectItems_names_nodup rbt items [] (by simp))
  · exact List.sorted_insertionSort resLE _
  · intro r hr
    have hr' : r ∈ (collectItems rbt [] [] items).1 :=
      (List.mem_insertionSort resLE).mp hr
    rcases mem_collectItems rbt items [] hr' with h' | ⟨qi, hqi, ty, hty, hrty⟩
    · cases h'
    · exact ⟨qi, hqi, (h ty r hrty) ▸ hty⟩
  · intro qi hqi ty hty hmiss
    exact collectItems_warn_of_missing rbt items hqi hty hmiss

/-- C10 witness: one queue item declaring a present type `t1` and a
missing type `t2`. -/
theorem lockResources_spec_witness :
    (((lockResources rbt0 qiItems).1).map SRes.name).Nodup ∧
      List.Sorted resLE (lockResources rbt0 qiItems).1 ∧
      (∀ r ∈ (lockResources rbt0 qiItems).1,
        ∃ qi ∈ qiItems, r.type ∈ qi.resourceTypes) ∧
      ∀ qi ∈ qiItems, ∀ ty ∈ qi.resourceTypes, rbt0 ty = [] →
        ty ∈ (lockResources rbt0 qiItems).2 :=
  lockResources_spec rbt0 qiItems (by
    intro ty r hr
    by_cases hty : ty = "t1"
    · subst hty
      simp only [rbt0, if_true, List.mem_singleton] at hr
      simp [hr]
    · simp [rbt0, hty] at hr)

end Saturn
